import Mathlib

/- Verification of the skill-calibrated move advisor of the llm_chess_bot
repository (src/player.py, src/board.py, src/app.py).

The rules engine (python-chess) is an external collaborator; board state is
embedded as an abstract snapshot exposing exactly the queries the advisor
reads (piece lookup, side to move, check and checkmate flags, attacker
counts, capture test), and the push/pop mutation discipline of python-chess
is embedded as explicit state passing with a snapshot stack, so that the
net effect of the evaluator on the board handed to it is visible.

Randomness (random.random, random.choice, random.uniform, random.randint)
is embedded by passing the drawn values explicitly: a rational sample for
random.random and random.uniform, an integer for random.randint, and an
index for random.choice, where random.choice l i reads the element at
position i modulo the length of l, so that every possible draw corresponds
to some index.  The LLM reply (the Ollama HTTP call) is passed in as the
response string; a transport failure is the sentinel reply
"FALLBACK_RANDOM_MOVE", exactly as _call_ollama_api produces it.

Python floats are embedded as exact rationals: the fractions 0.4, 0.65,
0.8 and the mistake-chance table entries are exactly representable choices
of the source and the int() truncation of a nonnegative product is the
floor, embedded as natural-number division of exact products. -/

namespace LlmChessBot

/-- Colors as in python-chess: true is White, false is Black. -/
abbrev Color := Bool

/-- Piece kinds of python-chess (chess.PAWN .. chess.KING). -/
inductive PieceType where
  | pawn
  | knight
  | bishop
  | rook
  | queen
  | king
deriving DecidableEq, Repr

/-- The piece_values table of ComputerPlayer._evaluate_move:
pawn 1, knight 3, bishop 3, rook 5, queen 9, king 0. -/
def piece_values : PieceType → ℚ
  | .pawn => 1
  | .knight => 3
  | .bishop => 3
  | .rook => 5
  | .queen => 9
  | .king => 0

/-- A piece as python-chess returns it from piece_at: a color and a kind. -/
structure Piece where
  color : Color
  ptype : PieceType
deriving DecidableEq, Repr

/-- A move as chess.Move: source square, destination square (0..63, square =
rank * 8 + file as in python-chess) and an optional promotion kind. -/
structure MoveC where
  fromSq : ℕ
  toSq : ℕ
  promo : Option PieceType
deriving DecidableEq, Repr

/-- Read-only view of one rules-engine board state: the queries
_evaluate_move performs on a chess.Board.  attackersCount c sq is the
number of pieces of color c attacking square sq, the length of
board.attackers(c, sq); isCaptureMove is board.is_capture. -/
structure Snapshot where
  pieceAt : ℕ → Option Piece
  turn : Color
  isCheck : Bool
  isCheckmate : Bool
  attackersCount : Color → ℕ → ℕ
  isCaptureMove : MoveC → Bool

/-- A chess.Board as the evaluator uses it: the current snapshot plus the
undo stack maintained by push and pop, together with the transition
function of the rules engine (what push computes for the new state). -/
structure Board where
  current : Snapshot
  stack : List Snapshot
  applyMove : Snapshot → MoveC → Snapshot

/-- board.push(move): the new position becomes current, the old one goes on
the undo stack. -/
def Board.push (b : Board) (m : MoveC) : Board :=
  ⟨b.applyMove b.current m, b.current :: b.stack, b.applyMove⟩

/-- board.pop(): restore the previous position from the undo stack. -/
def Board.pop (b : Board) : Board :=
  match b with
  | ⟨c, [], f⟩ => ⟨c, [], f⟩
  | ⟨_, s :: rest, f⟩ => ⟨s, rest, f⟩

/-- The four central squares [chess.E4, chess.E5, chess.D4, chess.D5]. -/
def center_squares : List ℕ := [28, 36, 27, 35]

/-- ComputerPlayer._evaluate_move (src/player.py lines 236-310), with the
board threaded explicitly: the result is the score together with the board
as the evaluator leaves it.  color is self.color (true for white).  u is
the draw of random.uniform(0, 1) used for the hanging-piece penalty below
skill 5; noise is the draw of random.randint(-20, 20) (skill below 5)
respectively random.randint(-10, 10) (skill 5 to 7).  The line computing
board.attacks(move.to_square) binds a variable the source never reads and
is omitted.  Note the source passes (not board.turn) after the push to
board.attackers, which is the color of the mover. -/
def evaluate_move (color : Color) (board : Board) (move : MoveC) (skill_level : ℕ)
    (u : ℚ) (noise : ℤ) : ℚ × Board :=
  let score : ℚ := 50
  let score :=
    if board.current.isCaptureMove move then
      match board.current.pieceAt move.toSq with
      | some captured_piece => score + piece_values captured_piece.ptype * 10
      | none => score
    else score
  let b1 := board.push move
  let score := if b1.current.isCheck then score + 15 else score
  let score := if b1.current.isCheckmate then score + 1000 else score
  let score :=
    match b1.current.pieceAt move.toSq with
    | some piece_at_dest =>
        let piece_value := piece_values piece_at_dest.ptype
        let attackers := b1.current.attackersCount (!b1.current.turn) move.toSq
        if 0 < attackers then
          if skill_level < 5 then score - piece_value * 5 * u
          else score - piece_value * 5
        else score
    | none => score
  let score := if move.toSq ∈ center_squares then score + 8 else score
  let from_rank := move.fromSq / 8
  let score :=
    if color = false ∧ from_rank = 7 then score + 5
    else if color = true ∧ from_rank = 0 then score + 5
    else score
  let b2 := b1.pop
  let score :=
    if skill_level < 5 then score + (noise : ℚ)
    else if skill_level < 8 then score + (noise : ℚ)
    else score
  (score, b2)

/-- The sentinel string _call_ollama_api returns on any transport or
service failure. -/
def FALLBACK_RANDOM_MOVE : String := "FALLBACK_RANDOM_MOVE"

/-- random.choice(l) with the draw passed as the index i: the element at
position i modulo the length of l.  Every element of a non-empty l is
choice l i for some i. -/
def choice (l : List String) (i : ℕ) : String :=
  l.getD (i % l.length) ""

/-- String b starts with the character list n. -/
def startsWithL : List Char → List Char → Bool
  | [], _ => true
  | _ :: _, [] => false
  | a :: as, b :: bs => a == b && startsWithL as bs

/-- The character list n occurs contiguously inside h. -/
def occursInL (n : List Char) : List Char → Bool
  | [] => startsWithL n []
  | b :: bs => startsWithL n (b :: bs) || occursInL n bs

/-- The Python substring test (move in response). -/
def isSubstrOf (needle hay : String) : Bool :=
  occursInL needle.toList hay.toList

/-- ComputerPlayer._parse_llm_response (src/player.py lines 129-149).  The
caller passes the filtered candidate list for legal_moves.  Order of the
source is kept: the sentinel test happens on the raw response, the strip
afterwards; then an exact match, then the first candidate occurring as a
substring of the reply, then random.choice over the same list. -/
def parse_llm_response (response : String) (legal_moves : List String) (i : ℕ) : String :=
  if response = FALLBACK_RANDOM_MOVE then choice legal_moves i
  else
    let response := response.trim
    if response ∈ legal_moves then response
    else
      match legal_moves.find? (fun m => isSubstrOf m response) with
      | some m => m
      | none => choice legal_moves i

/-- The mistake-chance step table of ComputerPlayer._select_move_by_skill:
skill at most 2 gives 0.50, 3-4 gives 0.35, 5-6 gives 0.20, 7-8 gives
0.10, and the remaining branch (skill 9) gives 0.05. -/
def mistake_chance (skill_level : ℕ) : ℚ :=
  if skill_level ≤ 2 then 1/2
  else if skill_level ≤ 4 then 7/20
  else if skill_level ≤ 6 then 1/5
  else if skill_level ≤ 8 then 1/10
  else 1/20

/-- ComputerPlayer._select_move_by_skill (src/player.py lines 151-185).
r is the draw of random.random() in [0,1); i the draw of random.choice
over legal_moves. -/
def select_move_by_skill (skill_level : ℕ) (best_move : String) (legal_moves : List String)
    (r : ℚ) (i : ℕ) : String :=
  if 10 ≤ skill_level then best_move
  else if r < mistake_chance skill_level then choice legal_moves i
  else best_move

/-- The keep count of ComputerPlayer._filter_moves_by_skill: int(n * 0.4)
for skill at most 3, int(n * 0.65) for 4-6, int(n * 0.8) for 7 (skill at
least 8 never reaches this), floored at 3.  int() of these nonnegative
products is their floor, here natural division of exact products. -/
def num_moves_to_keep (skill_level n : ℕ) : ℕ :=
  max 3 (if skill_level ≤ 3 then n * 2 / 5
         else if skill_level ≤ 6 then n * 13 / 20
         else n * 4 / 5)

/-- Descending-by-score order on scored moves: a comes no later than b when
the score of b is at most the score of a.  Stable insertion sort under this
relation computes exactly what the stable Python sort with reverse=True
computes. -/
def scoreGE (a b : String × ℚ) : Prop := b.2 ≤ a.2

instance : DecidableRel scoreGE := fun a b => inferInstanceAs (Decidable (b.2 ≤ a.2))

instance : IsTotal (String × ℚ) scoreGE := ⟨fun a b => (le_total b.2 a.2).imp id id⟩

instance : IsTrans (String × ℚ) scoreGE := ⟨fun _ _ _ hab hbc => le_trans hbc hab⟩

/-- ComputerPlayer._filter_moves_by_skill (src/player.py lines 187-234).
The score argument stands for the evaluation of one move string, i.e. the
composite of chess.Move.from_uci and _evaluate_move with the drawn
randomness, with the per-move exception handler folded in (a move whose
evaluation raises scores the neutral 50); the claims hold for every such
oracle.  All moves are scored, sorted descending by score (stably, as
list.sort does), and the top num_moves_to_keep are kept. -/
def filter_moves_by_skill (skill_level : ℕ) (legal_moves : List String)
    (score : String → ℚ) : List String :=
  if 8 ≤ skill_level then legal_moves
  else if legal_moves.length ≤ 3 then legal_moves
  else
    let scored_moves := legal_moves.map fun m => (m, score m)
    let sorted_moves := scored_moves.insertionSort scoreGE
    let keep := num_moves_to_keep skill_level legal_moves.length
    (sorted_moves.take keep).map Prod.fst

/-- ComputerPlayer._get_llm_move (src/player.py lines 41-63), happy path:
filter by skill, build the prompt (which does not influence the returned
move and is omitted), obtain the service reply, parse it against the
filtered candidates, then apply the mistake injection against the full
legal list.  pidx and sidx are the random.choice draws inside the parse
step and the mistake step; r the random.random draw of the mistake step.
The exception fallback of the source also returns random.choice of
legal_moves, a member of the same set. -/
def get_llm_move (skill_level : ℕ) (legal_moves : List String) (score : String → ℚ)
    (response : String) (pidx : ℕ) (r : ℚ) (sidx : ℕ) : String :=
  let filtered_moves := filter_moves_by_skill skill_level legal_moves score
  let move := parse_llm_response response filtered_moves pidx
  select_move_by_skill skill_level move legal_moves r sidx

/-- Result of ComputerPlayer.make_move: the move handed to board.make_move,
or the error payload returned with success False. -/
inductive MoveResult where
  | ok (move : String)
  | err (msg : String)
deriving DecidableEq, Repr

/-- ComputerPlayer.make_move (src/player.py lines 26-39): read the legal
moves from the board state; if there are none, return the error payload at
once; otherwise run the pipeline and play its move. -/
def make_move (skill_level : ℕ) (legal_moves : List String) (score : String → ℚ)
    (response : String) (pidx : ℕ) (r : ℚ) (sidx : ℕ) : MoveResult :=
  if legal_moves = [] then .err "No legal moves available"
  else .ok (get_llm_move skill_level legal_moves score response pidx r sidx)

/-- The clamp of ComputerPlayer.__init__: max(1, min(10, skill_level)). -/
def clamp_skill (skill_level : ℤ) : ℤ := max 1 (min 10 skill_level)

/-- The fields of a ComputerPlayer that the claims concern. -/
structure ComputerPlayerS where
  color : Color
  skill_level : ℤ
deriving DecidableEq, Repr

/-- ComputerPlayer.__init__ (src/player.py lines 17-24): the stored skill
level is the clamp of the argument. -/
def mkComputerPlayer (color : Color) (skill_level : ℤ) : ComputerPlayerS :=
  ⟨color, clamp_skill skill_level⟩

/-- The set_skill_level route of src/app.py (lines 103-127): an integer
outside 1..10 is rejected with a client error and the player is untouched;
otherwise the computer player is recreated through the constructor. -/
def set_skill_level_route (p : ComputerPlayerS) (req : ℤ) : ComputerPlayerS × Option String :=
  if req < 1 ∨ 10 < req then (p, some "Skill level must be between 1 and 10")
  else (mkComputerPlayer false req, none)

/-- The hint categories the tests accept (test_chess.py valid_categories). -/
inductive HintCategory where
  | checkmate
  | check
  | capture
  | castling
  | promotion
  | center
  | development
  | general
deriving DecidableEq, Repr

/-- A hint as the route returns it: the fields the tests require. -/
structure Hint where
  move : String
  category : HintCategory
  explanation : String
  from_square : String
  to_square : String
deriving DecidableEq, Repr

/-- Rules-engine predicates about one move of the current position, needed
by the hint classification (check, checkmate, capture, castling, promotion
are questions only the rules engine can answer). -/
structure HintOracle where
  isCheckmateMove : String → Bool
  isCheckMove : String → Bool
  isCaptureMove : String → Bool
  isCastlingMove : String → Bool
  isPromotionMove : String → Bool

/-- Source square of a UCI move string (first two characters). -/
def uciFrom (m : String) : String := String.mk (m.toList.take 2)

/-- Destination square of a UCI move string (third and fourth characters). -/
def uciTo (m : String) : String := String.mk ((m.toList.drop 2).take 2)

/-- Modelled from the spec: the category classification of the Hint
Generator, absent from src/player.py.  Spec 4.5 fixes the priority order
checkmate, check, promotion, castling, capture, center (destination one of
the four central squares), development (origin on the back rank of the
mover), general. -/
def classify_hint (o : HintOracle) (color : Color) (m : String) : HintCategory :=
  if o.isCheckmateMove m then .checkmate
  else if o.isCheckMove m then .check
  else if o.isPromotionMove m then .promotion
  else if o.isCastlingMove m then .castling
  else if o.isCaptureMove m then .capture
  else if uciTo m ∈ (["e4", "e5", "d4", "d5"] : List String) then .center
  else if (color = true ∧ (uciFrom m).toList.getD 1 ' ' = '1')
          ∨ (color = false ∧ (uciFrom m).toList.getD 1 ' ' = '8') then .development
  else .general

/-- Modelled from the spec: the short clause of an explanation, one per
category (exact wording is free per spec section 9, subject only to the
non-trivial length constraint). -/
def category_clause : HintCategory → String
  | .checkmate => "This move delivers checkmate and wins the game"
  | .check => "This move puts the opposing king in check"
  | .capture => "This move captures an enemy piece"
  | .castling => "This move castles and brings your king to safety"
  | .promotion => "This move promotes your pawn to a stronger piece"
  | .center => "This move takes control of the center"
  | .development => "This move develops a piece from the back rank"
  | .general => "This move improves your position"

/-- Modelled from the spec: the tactical reason added at intermediate
detail. -/
def category_reason : HintCategory → String
  | .checkmate => "No reply can save the opposing king."
  | .check => "The opponent must answer the check before anything else."
  | .capture => "Winning material is usually a lasting advantage."
  | .castling => "A castled king is much harder to attack."
  | .promotion => "A new queen changes the balance of material at once."
  | .center => "Central squares give your pieces the most mobility."
  | .development => "Developed pieces work together sooner."
  | .general => "Steady moves keep your position flexible."

/-- Modelled from the spec: the forward-looking remark added at advanced
detail. -/
def category_remark : HintCategory → String
  | .checkmate => "The game ends immediately in your favor."
  | .check => "Look for follow-up threats while the king is exposed."
  | .capture => "Watch for recaptures before committing."
  | .castling => "Plan your pawn storms only after the king is safe."
  | .promotion => "Keep the new queen out of immediate danger."
  | .center => "A strong center prepares attacks on both wings."
  | .development => "Aim to connect your rooks next."
  | .general => "Keep improving your least active piece."

/-- Modelled from the spec: the explanation scales with the hint level,
basic one clause, intermediate clause plus reason, advanced clause, reason
and remark; hintLevel never changes the move, only the wording. -/
def explain_hint (level : String) (cat : HintCategory) : String :=
  if level = "basic" then category_clause cat
  else if level = "intermediate" then category_clause cat ++ ". " ++ category_reason cat
  else category_clause cat ++ ". " ++ category_reason cat ++ " " ++ category_remark cat

/-- Modelled from the spec: ComputerPlayer.get_hint, called by the hint
route of src/app.py and exercised by test_chess.py but absent from
src/player.py.  Spec 4.5: run move selection at maximum skill over the
full legal list (no filtering, no mistake injection: the raw Suggestion
Client pick, here the parse of the service reply against all legal moves),
classify the move, attach the level-scaled explanation; the call yields
none exactly when no move can be produced (empty legal list). -/
def get_hint (color : Color) (o : HintOracle) (legal_moves : List String)
    (response : String) (i : ℕ) (level : String) : Option Hint :=
  if legal_moves.isEmpty then none
  else
    let m := parse_llm_response response legal_moves i
    let cat := classify_hint o color m
    some ⟨m, cat, explain_hint level cat, uciFrom m, uciTo m⟩

/-- Outcome of the hint route of src/app.py: the hint payload or one of
its three explicit error replies. -/
inductive HintRouteResult where
  | hintOk (h : Hint)
  | invalidLevel (msg : String)
  | outOfTurn (msg : String)
  | generationFailed (msg : String)
deriving DecidableEq, Repr

/-- The accepted hint levels of the route. -/
def valid_hint_levels : List String := ["basic", "intermediate", "advanced"]

/-- The hint route of src/app.py (lines 129-152): reject an unknown level,
reject a request when it is not the turn of White (the human side), then
build a fresh white ComputerPlayer of skill 10 and return its hint, turning a
none into the explicit generation failure. -/
def get_hint_route (turn : Color) (level : String) (o : HintOracle)
    (legal_moves : List String) (response : String) (i : ℕ) : HintRouteResult :=
  if level ∉ valid_hint_levels then
    .invalidLevel "Hint level must be one of: basic, intermediate, advanced"
  else if turn ≠ true then
    .outOfTurn "Hints are only available on your turn (White to move)"
  else
    match get_hint true o legal_moves response i level with
    | some h => .hintOk h
    | none => .generationFailed "Unable to generate hint"

/- Concrete fixtures. -/

/-- Five legal opening moves of White, used as a concrete legal list. -/
def legal5 : List String := ["a2a3", "a2a4", "b2b3", "b2b4", "g1f3"]

/-- A concrete score oracle ranking the first three moves of legal5 on
top, so that the skill filter at a low skill drops b2b4 and g1f3. -/
def score5 : String → ℚ := fun m =>
  if m = "a2a3" then 90
  else if m = "a2a4" then 80
  else if m = "b2b3" then 70
  else if m = "b2b4" then 60
  else 55

/-- A white knight, the piece standing on f3 after the move g1f3. -/
def knightPiece : Piece := ⟨true, PieceType.knight⟩

/-- Snapshot of the position after 1.e4 e5, White to move.  Only the
fields the evaluator reads at the move g1f3 matter: the move is not a
capture; the remaining fields are defaulted. -/
def snapAfterE4E5 : Snapshot where
  pieceAt := fun _ => none
  turn := true
  isCheck := false
  isCheckmate := false
  attackersCount := fun _ _ => 0
  isCaptureMove := fun _ => false

/-- Snapshot of the position after 1.e4 e5 2.Ng1f3, Black to move.  On the
real board the white knight stands on f3 (square 21 = rank 2 * 8 + file
5); White attacks f3 twice (the pawn on g2 and, through the vacated e2,
the queen on d1) while no black piece attacks f3.  The move gives neither
check nor checkmate.  Fields the evaluator does not read at this input are
defaulted. -/
def snapAfterNf3 : Snapshot where
  pieceAt := fun sq => if sq = 21 then some knightPiece else none
  turn := false
  isCheck := false
  isCheckmate := false
  attackersCount := fun c sq => if c = true ∧ sq = 21 then 2 else 0
  isCaptureMove := fun _ => false

/-- The board handed to the evaluator: current position after 1.e4 e5,
empty undo stack, and the rules-engine transition producing the position
after 2.Ng1f3. -/
def boardE4E5 : Board := ⟨snapAfterE4E5, [], fun _ _ => snapAfterNf3⟩

/-- The move g1f3: from g1 (square 6) to f3 (square 21), no promotion. -/
def moveNf3 : MoveC := ⟨6, 21, none⟩

/-- A trivial hint oracle for witnesses: no move checks, mates, captures,
castles or promotes (true of every knight and pawn move of the starting
position). -/
def quietOracle : HintOracle :=
  ⟨fun _ => false, fun _ => false, fun _ => false, fun _ => false, fun _ => false⟩

/- Helper lemmas. -/

theorem choice_mem (l : List String) (i : ℕ) (h : l ≠ []) : choice l i ∈ l := by
  have hlen : 0 < l.length := List.length_pos.mpr h
  have hmod : i % l.length < l.length := Nat.mod_lt _ hlen
  unfold choice
  rw [List.getD_eq_getElem?_getD, List.getElem?_eq_getElem hmod]
  exact List.getElem_mem hmod

theorem parse_llm_response_mem (response : String) (l : List String) (i : ℕ) (h : l ≠ []) :
    parse_llm_response response l i ∈ l := by
  unfold parse_llm_response
  split
  · exact choice_mem l i h
  · by_cases hmem : response.trim ∈ l
    · simp [hmem]
    · simp only [hmem, if_false]
      cases hfind : l.find? (fun m => isSubstrOf m response.trim) with
      | some m => simpa [hfind] using List.mem_of_find?_eq_some hfind
      | none => simpa [hfind] using choice_mem l i h

theorem select_move_eq_or (skill : ℕ) (best : String) (l : List String) (r : ℚ) (i : ℕ) :
    select_move_by_skill skill best l r i = best
      ∨ select_move_by_skill skill best l r i = choice l i := by
  unfold select_move_by_skill
  split_ifs <;> simp

theorem filter_moves_subset (skill : ℕ) (legal : List String) (score : String → ℚ) :
    ∀ m ∈ filter_moves_by_skill skill legal score, m ∈ legal := by
  intro m hm
  unfold filter_moves_by_skill at hm
  split at hm
  · exact hm
  split at hm
  · exact hm
  · simp only [List.mem_map] at hm
    obtain ⟨p, hp, rfl⟩ := hm
    have hp2 : p ∈ (legal.map fun m => (m, score m)).insertionSort scoreGE :=
      List.mem_of_mem_take hp
    rw [List.mem_insertionSort] at hp2
    simp only [List.mem_map] at hp2
    obtain ⟨a, ha, rfl⟩ := hp2
    exact ha

theorem num_moves_to_keep_ge (skill n : ℕ) : 3 ≤ num_moves_to_keep skill n :=
  le_max_left 3 _

theorem num_moves_to_keep_le (skill n : ℕ) (h : 4 ≤ n) : num_moves_to_keep skill n ≤ n := by
  have h2 : n * 2 / 5 ≤ n := by
    calc n * 2 / 5 ≤ n * 5 / 5 := Nat.div_le_div_right (by omega)
    _ = n := Nat.mul_div_cancel n (by omega)
  have h13 : n * 13 / 20 ≤ n := by
    calc n * 13 / 20 ≤ n * 20 / 20 := Nat.div_le_div_right (by omega)
    _ = n := Nat.mul_div_cancel n (by omega)
  have h4 : n * 4 / 5 ≤ n := by
    calc n * 4 / 5 ≤ n * 5 / 5 := Nat.div_le_div_right (by omega)
    _ = n := Nat.mul_div_cancel n (by omega)
  unfold num_moves_to_keep
  split_ifs <;> omega

theorem filter_moves_length_eq (skill : ℕ) (legal : List String) (score : String → ℚ) :
    (filter_moves_by_skill skill legal score).length =
      if 8 ≤ skill then legal.length
      else if legal.length ≤ 3 then legal.length
      else num_moves_to_keep skill legal.length := by
  unfold filter_moves_by_skill
  split
  · rfl
  split
  · rfl
  · rename_i h8 h3
    simp only [List.length_map, List.length_take, List.length_insertionSort]
    exact min_eq_left (num_moves_to_keep_le skill legal.length (by omega))

theorem filter_moves_ne_nil (skill : ℕ) (legal : List String) (score : String → ℚ)
    (h : legal ≠ []) : filter_moves_by_skill skill legal score ≠ [] := by
  have hlen : 0 < legal.length := List.length_pos.mpr h
  have := filter_moves_length_eq skill legal score
  have h3 := num_moves_to_keep_ge skill legal.length
  intro hcontra
  rw [hcontra] at this
  simp only [List.length_nil] at this
  split_ifs at this <;> omega

/-- C1: for every skill level in 1..10 and every non-empty legal-move
list, the computer-move pipeline (skill filter, then suggestion parsing
with fallback, then mistake injection) returns a member of the legal-move
list, whatever the score oracle, the service reply and the random draws
are. -/
theorem selectComputerMove_mem_legal (skill : ℕ) (legal : List String) (score : String → ℚ)
    (response : String) (pidx : ℕ) (r : ℚ) (sidx : ℕ)
    (h1 : 1 ≤ skill) (h10 : skill ≤ 10) (hne : legal ≠ []) :
    get_llm_move skill legal score response pidx r sidx ∈ legal := by
  unfold get_llm_move
  have hfne : filter_moves_by_skill skill legal score ≠ [] :=
    filter_moves_ne_nil skill legal score hne
  have hparse := parse_llm_response_mem response (filter_moves_by_skill skill legal score)
    pidx hfne
  rcases select_move_eq_or skill (parse_llm_response response
      (filter_moves_by_skill skill legal score) pidx) legal r sidx with h | h
  · rw [h]
    exact filter_moves_subset skill legal score _ hparse
  · rw [h]
    exact choice_mem legal sidx hne

/-- Witness for C1 at skill 5, the starting legal list fragment legal5,
the sentinel reply and arbitrary draws. -/
theorem selectComputerMove_mem_legal_witness :
    get_llm_move 5 legal5 score5 FALLBACK_RANDOM_MOVE 7 (1/3) 11 ∈ legal5 :=
  selectComputerMove_mem_legal 5 legal5 score5 FALLBACK_RANDOM_MOVE 7 (1/3) 11
    (by decide) (by decide) (by decide)

/-- C2 counterexample: at skill 1 with the five legal moves legal5 and the
score oracle score5 the Skill Filter keeps three candidates, and on the
service-failure sentinel the parse step returns one of those three
candidates for every random draw; the legal move g1f3, removed by the
filter, can never be returned on the fallback path, although the claim
says every legal move can. -/
theorem fallback_never_returns_filtered_out_move :
    (∀ i : ℕ, parse_llm_response FALLBACK_RANDOM_MOVE
        (filter_moves_by_skill 1 legal5 score5) i ≠ "g1f3")
    ∧ "g1f3" ∈ legal5 := by
  constructor
  · intro i hcontra
    have hfilter : filter_moves_by_skill 1 legal5 score5 = ["a2a3", "a2a4", "b2b3"] := by
      decide
    have hmem : parse_llm_response FALLBACK_RANDOM_MOVE
        (filter_moves_by_skill 1 legal5 score5) i
          ∈ filter_moves_by_skill 1 legal5 score5 :=
      parse_llm_response_mem _ _ i (by rw [hfilter]; decide)
    rw [hcontra, hfilter] at hmem
    revert hmem
    decide
  · decide

/-- C2 amended: on the fallback sentinel, and on a reply matching no
candidate, the Suggestion Client picks uniformly at random from the
candidate list handed to it by the Skill Filter, not from the full legal
set; the result is always a member of that candidate list (hence legal,
as the candidates are a subset of the legal moves). -/
theorem parse_fallback_within_candidates (response : String) (cands : List String) (i : ℕ)
    (h : cands ≠ []) :
    parse_llm_response response cands i ∈ cands
    ∧ (response = FALLBACK_RANDOM_MOVE →
        parse_llm_response response cands i = choice cands i) := by
  refine ⟨parse_llm_response_mem response cands i h, fun hr => ?_⟩
  unfold parse_llm_response
  rw [if_pos hr]

/-- Witness for the amended C2 at a two-candidate list and the sentinel
reply. -/
theorem parse_fallback_within_candidates_witness :
    parse_llm_response FALLBACK_RANDOM_MOVE ["a2a3", "a2a4"] 5 ∈ ["a2a3", "a2a4"]
    ∧ (FALLBACK_RANDOM_MOVE = FALLBACK_RANDOM_MOVE →
        parse_llm_response FALLBACK_RANDOM_MOVE ["a2a3", "a2a4"] 5
          = choice ["a2a3", "a2a4"] 5) :=
  parse_fallback_within_candidates FALLBACK_RANDOM_MOVE ["a2a3", "a2a4"] 5 (by decide)

/-- C3 (code bug): at the position after 1.e4 e5 with the move g1f3 at
skill 5 and zero noise, no black piece attacks the destination f3 (square
21), yet the evaluator returns 40 = 50 (base) + 5 (development) - 15
(hanging-piece penalty, knight value 3 times 5): the source passes
(not board.turn) to board.attackers after the push, which is the color of
the mover, so the penalty fires on the two white attackers of f3 although
the claim requires an attacker of the opponent of the mover. -/
theorem hanging_penalty_counts_mover_attackers :
    snapAfterNf3.attackersCount false 21 = 0
    ∧ snapAfterNf3.attackersCount true 21 = 2
    ∧ (evaluate_move true boardE4E5 moveNf3 5 0 0).1 = 40 := by
  refine ⟨by simp [snapAfterNf3], by simp [snapAfterNf3], ?_⟩
  norm_num [evaluate_move, boardE4E5, Board.push, Board.pop, snapAfterE4E5, snapAfterNf3,
    center_squares, piece_values, knightPiece, moveNf3]

/-- C7: the evaluator hands back the board it was given: the push of the
scratch move is undone by the pop, so the caller observes an unchanged
position whatever the move, skill and draws are. -/
theorem evaluate_move_preserves_board (color : Color) (b : Board) (m : MoveC)
    (skill : ℕ) (u : ℚ) (noise : ℤ) :
    (evaluate_move color b m skill u noise).2 = b := rfl

/-- C8: on an empty legal-move list, make_move returns the explicit
"No legal moves available" error, and the result does not depend on the
score oracle, the service reply or the random draws, so no pipeline stage
influences (or is needed by) the outcome. -/
theorem empty_legal_fails_fast (skill : ℕ) (score : String → ℚ) (response : String)
    (pidx : ℕ) (r : ℚ) (sidx : ℕ) :
    make_move skill [] score response pidx r sidx = .err "No legal moves available" := rfl

/-- C9: the skill level stored at construction is the argument clamped
into 1..10 (below 1 becomes 1, above 10 becomes 10, in-range values are
kept), and the set_skill_level route either rejects the request leaving
the player untouched or rebuilds the player through the constructor, so a
player whose stored level is in range keeps a stored level in range. -/
theorem skill_level_clamped (c : Color) (s : ℤ) (p : ComputerPlayerS) (req : ℤ)
    (hp1 : 1 ≤ p.skill_level) (hp2 : p.skill_level ≤ 10) :
    (1 ≤ (mkComputerPlayer c s).skill_level ∧ (mkComputerPlayer c s).skill_level ≤ 10)
    ∧ (s < 1 → (mkComputerPlayer c s).skill_level = 1)
    ∧ (10 < s → (mkComputerPlayer c s).skill_level = 10)
    ∧ (1 ≤ s → s ≤ 10 → (mkComputerPlayer c s).skill_level = s)
    ∧ (1 ≤ (set_skill_level_route p req).1.skill_level
        ∧ (set_skill_level_route p req).1.skill_level ≤ 10) := by
  have hclamp : ∀ (d : Color) (t : ℤ), (mkComputerPlayer d t).skill_level = max 1 (min 10 t) :=
    fun _ _ => rfl
  refine ⟨⟨?_, ?_⟩, fun h => ?_, fun h => ?_, fun ha hb => ?_, ?_⟩
  · rw [hclamp]; omega
  · rw [hclamp]; omega
  · rw [hclamp]; omega
  · rw [hclamp]; omega
  · rw [hclamp]; omega
  · unfold set_skill_level_route
    split_ifs with hreq
    · exact ⟨hp1, hp2⟩
    · dsimp only
      rw [hclamp]
      omega

/-- Witness for C9 at a below-range constructor argument and an
above-range route request. -/
theorem skill_level_clamped_witness :
    (1 ≤ (mkComputerPlayer true (-5)).skill_level
      ∧ (mkComputerPlayer true (-5)).skill_level ≤ 10)
    ∧ ((-5 : ℤ) < 1 → (mkComputerPlayer true (-5)).skill_level = 1)
    ∧ ((10 : ℤ) < -5 → (mkComputerPlayer true (-5)).skill_level = 10)
    ∧ ((1 : ℤ) ≤ -5 → (-5 : ℤ) ≤ 10 → (mkComputerPlayer true (-5)).skill_level = -5)
    ∧ (1 ≤ (set_skill_level_route (mkComputerPlayer true 5) 11).1.skill_level
        ∧ (set_skill_level_route (mkComputerPlayer true 5) 11).1.skill_level ≤ 10) :=
  skill_level_clamped true (-5) (mkComputerPlayer true 5) 11 (by decide) (by decide)

/-- C4: when it is the turn of White (the human side) and the hint level
is one of the three accepted levels, the hint route answers with either a
hint payload or the explicit generation failure; the embedding is total,
so no such call ends in an unhandled fault. -/
theorem hint_route_total (level : String) (o : HintOracle) (legal : List String)
    (response : String) (i : ℕ) (hlevel : level ∈ valid_hint_levels) :
    (∃ h, get_hint_route true level o legal response i = .hintOk h)
    ∨ get_hint_route true level o legal response i
        = .generationFailed "Unable to generate hint" := by
  unfold get_hint_route
  rw [if_neg (not_not_intro hlevel), if_neg (by simp)]
  cases hg : get_hint true o legal response i level with
  | none => right; rfl
  | some h => left; exact ⟨h, rfl⟩

/-- Witness for C4 at the basic level, a one-move legal list, the quiet
oracle and the sentinel reply. -/
theorem hint_route_total_witness :
    (∃ h, get_hint_route true "basic" quietOracle ["g1f3"] FALLBACK_RANDOM_MOVE 0
        = .hintOk h)
    ∨ get_hint_route true "basic" quietOracle ["g1f3"] FALLBACK_RANDOM_MOVE 0
        = .generationFailed "Unable to generate hint" :=
  hint_route_total "basic" quietOracle ["g1f3"] FALLBACK_RANDOM_MOVE 0 (by decide)

/-- C6: the mistake injector returns the suggested move unchanged at skill
10; at lower skills it substitutes the uniform random choice over the full
legal list exactly when the uniform sample falls below the step-table
chance, and that chance is 0.50 up to skill 2, 0.35 at 3..4, 0.20 at
5..6, 0.10 at 7..8 and 0.05 at 9. -/
theorem mistake_injector_table (skill : ℕ) (best : String) (legal : List String)
    (r : ℚ) (i : ℕ) (h1 : 1 ≤ skill) (h10 : skill ≤ 10) (hne : legal ≠ []) :
    (skill = 10 → select_move_by_skill skill best legal r i = best)
    ∧ (skill < 10 → r < mistake_chance skill →
        select_move_by_skill skill best legal r i = choice legal i ∧ choice legal i ∈ legal)
    ∧ (skill < 10 → mistake_chance skill ≤ r →
        select_move_by_skill skill best legal r i = best)
    ∧ (skill ≤ 2 → mistake_chance skill = 1/2)
    ∧ (3 ≤ skill → skill ≤ 4 → mistake_chance skill = 7/20)
    ∧ (5 ≤ skill → skill ≤ 6 → mistake_chance skill = 1/5)
    ∧ (7 ≤ skill → skill ≤ 8 → mistake_chance skill = 1/10)
    ∧ (skill = 9 → mistake_chance skill = 1/20) := by
  refine ⟨fun h => ?_, fun h hr => ?_, fun h hr => ?_, fun h => ?_, fun ha hb => ?_,
    fun ha hb => ?_, fun ha hb => ?_, fun h => ?_⟩
  · unfold select_move_by_skill
    rw [if_pos (by omega)]
  · unfold select_move_by_skill
    rw [if_neg (by omega), if_pos hr]
    exact ⟨rfl, choice_mem legal i hne⟩
  · unfold select_move_by_skill
    rw [if_neg (by omega), if_neg (not_lt.mpr hr)]
  · unfold mistake_chance
    rw [if_pos h]
  · unfold mistake_chance
    rw [if_neg (by omega), if_pos (by omega)]
  · unfold mistake_chance
    rw [if_neg (by omega), if_neg (by omega), if_pos (by omega)]
  · unfold mistake_chance
    rw [if_neg (by omega), if_neg (by omega), if_neg (by omega), if_pos (by omega)]
  · unfold mistake_chance
    rw [if_neg (by omega), if_neg (by omega), if_neg (by omega), if_neg (by omega)]

/-- Witness for C6 at skill 1, a sample below the one-half chance and a
two-move legal list. -/
theorem mistake_injector_table_witness :
    ((1 : ℕ) = 10 → select_move_by_skill 1 "a2a3" ["a2a3", "a2a4"] (1/4) 1 = "a2a3")
    ∧ ((1 : ℕ) < 10 → (1/4 : ℚ) < mistake_chance 1 →
        select_move_by_skill 1 "a2a3" ["a2a3", "a2a4"] (1/4) 1 = choice ["a2a3", "a2a4"] 1
          ∧ choice ["a2a3", "a2a4"] 1 ∈ ["a2a3", "a2a4"])
    ∧ ((1 : ℕ) < 10 → mistake_chance 1 ≤ (1/4 : ℚ) →
        select_move_by_skill 1 "a2a3" ["a2a3", "a2a4"] (1/4) 1 = "a2a3")
    ∧ ((1 : ℕ) ≤ 2 → mistake_chance 1 = 1/2)
    ∧ (3 ≤ (1 : ℕ) → (1 : ℕ) ≤ 4 → mistake_chance 1 = 7/20)
    ∧ (5 ≤ (1 : ℕ) → (1 : ℕ) ≤ 6 → mistake_chance 1 = 1/5)
    ∧ (7 ≤ (1 : ℕ) → (1 : ℕ) ≤ 8 → mistake_chance 1 = 1/10)
    ∧ ((1 : ℕ) = 9 → mistake_chance 1 = 1/20) :=
  mistake_injector_table 1 "a2a3" ["a2a3", "a2a4"] (1/4) 1 (by decide) (by decide) (by decide)

/-- C5: the Skill Filter returns a subset of the legal list; the result is
never empty and holds at least min 3 (number of legal moves) moves; the
list is returned unchanged at skill 8 and above, and whenever at most
three legal moves exist; otherwise exactly max 3 (floor of fraction times
total) moves are kept, with fraction 0.4 up to skill 3, 0.65 at 4..6 and
0.8 at 7, and every kept move scores at least every dropped legal move. -/
theorem skill_filter_bounds (skill : ℕ) (legal : List String) (score : String → ℚ)
    (h1 : 1 ≤ skill) (h10 : skill ≤ 10) (hne : legal ≠ []) :
    (∀ m ∈ filter_moves_by_skill skill legal score, m ∈ legal)
    ∧ filter_moves_by_skill skill legal score ≠ []
    ∧ min 3 legal.length ≤ (filter_moves_by_skill skill legal score).length
    ∧ (8 ≤ skill → filter_moves_by_skill skill legal score = legal)
    ∧ (legal.length ≤ 3 → filter_moves_by_skill skill legal score = legal)
    ∧ (skill < 8 → 3 < legal.length →
        (filter_moves_by_skill skill legal score).length =
          max 3 (if skill ≤ 3 then legal.length * 2 / 5
                 else if skill ≤ 6 then legal.length * 13 / 20
                 else legal.length * 4 / 5))
    ∧ (skill < 8 → 3 < legal.length →
        ∀ a ∈ filter_moves_by_skill skill legal score, ∀ b ∈ legal,
          b ∉ filter_moves_by_skill skill legal score → score b ≤ score a) := by
  refine ⟨filter_moves_subset skill legal score, filter_moves_ne_nil skill legal score hne,
    ?_, fun h8 => ?_, fun h3 => ?_, fun h8 h3 => ?_, fun h8 h3 => ?_⟩
  · have hlen := filter_moves_length_eq skill legal score
    have hge := num_moves_to_keep_ge skill legal.length
    rw [hlen]
    split_ifs <;> omega
  · unfold filter_moves_by_skill
    rw [if_pos h8]
  · unfold filter_moves_by_skill
    split_ifs <;> rfl
  · rw [filter_moves_length_eq skill legal score, if_neg (by omega), if_neg (by omega)]
    rfl
  · intro a ha b hb hbnot
    have hfe : filter_moves_by_skill skill legal score
        = (((legal.map fun m => (m, score m)).insertionSort scoreGE).take
            (num_moves_to_keep skill legal.length)).map Prod.fst := by
      unfold filter_moves_by_skill
      rw [if_neg (by omega), if_neg (by omega)]
    set scored := legal.map fun m => (m, score m) with hscored
    set sorted := scored.insertionSort scoreGE with hsorted
    set keep := num_moves_to_keep skill legal.length with hkeep
    have hpair : List.Pairwise scoreGE sorted := List.sorted_insertionSort scoreGE scored
    have hsplit : sorted.take keep ++ sorted.drop keep = sorted :=
      List.take_append_drop keep sorted
    have hpair2 : ∀ x ∈ sorted.take keep, ∀ y ∈ sorted.drop keep, scoreGE x y :=
      (List.pairwise_append.mp (by rw [hsplit]; exact hpair)).2.2
    rw [hfe] at ha
    simp only [List.mem_map] at ha
    obtain ⟨pa, hpa, hpa1⟩ := ha
    have hpa_scored : pa ∈ scored := by
      have hmem := List.mem_of_mem_take hpa
      rwa [hsorted, List.mem_insertionSort] at hmem
    have hpa_snd : pa.2 = score pa.1 := by
      rw [hscored] at hpa_scored
      simp only [List.mem_map] at hpa_scored
      obtain ⟨m, _, hmeq⟩ := hpa_scored
      rw [← hmeq]
    have hb_sorted : (b, score b) ∈ sorted := by
      rw [hsorted, List.mem_insertionSort, hscored]
      exact List.mem_map.mpr ⟨b, hb, rfl⟩
    have hb_drop : (b, score b) ∈ sorted.drop keep := by
      have hb_app : (b, score b) ∈ sorted.take keep ++ sorted.drop keep := by
        rw [hsplit]; exact hb_sorted
      rcases List.mem_append.mp hb_app with hmem | hmem
      · exact absurd (by rw [hfe]; exact List.mem_map.mpr ⟨(b, score b), hmem, rfl⟩) hbnot
      · exact hmem
    have hge := hpair2 pa hpa (b, score b) hb_drop
    unfold scoreGE at hge
    rw [hpa_snd, hpa1] at hge
    exact hge

/-- Witness for C5 at skill 1 and the five-move list legal5 with the
score oracle score5. -/
theorem skill_filter_bounds_witness :
    (∀ m ∈ filter_moves_by_skill 1 legal5 score5, m ∈ legal5)
    ∧ filter_moves_by_skill 1 legal5 score5 ≠ []
    ∧ min 3 legal5.length ≤ (filter_moves_by_skill 1 legal5 score5).length
    ∧ (8 ≤ (1 : ℕ) → filter_moves_by_skill 1 legal5 score5 = legal5)
    ∧ (legal5.length ≤ 3 → filter_moves_by_skill 1 legal5 score5 = legal5)
    ∧ ((1 : ℕ) < 8 → 3 < legal5.length →
        (filter_moves_by_skill 1 legal5 score5).length =
          max 3 (if (1 : ℕ) ≤ 3 then legal5.length * 2 / 5
                 else if (1 : ℕ) ≤ 6 then legal5.length * 13 / 20
                 else legal5.length * 4 / 5))
    ∧ ((1 : ℕ) < 8 → 3 < legal5.length →
        ∀ a ∈ filter_moves_by_skill 1 legal5 score5, ∀ b ∈ legal5,
          b ∉ filter_moves_by_skill 1 legal5 score5 → score5 b ≤ score5 a) :=
  skill_filter_bounds 1 legal5 score5 (by decide) (by decide) (by decide)

theorem countP_range_getD (l : List String) (b : String) :
    (List.range l.length).countP (fun i => !(l.getD i "" == b))
      = l.countP (fun m => !(m == b)) := by
  induction l with
  | nil => rfl
  | cons x xs ih =>
      rw [List.length_cons, List.range_succ_eq_map, List.countP_cons, List.countP_map,
        List.countP_cons]
      have hcomp : ((fun i => !((x :: xs).getD i "" == b)) ∘ Nat.succ)
          = fun i => !(xs.getD i "" == b) := by
        funext j
        simp [Function.comp, List.getD_cons_succ]
      rw [hcomp, ih]
      simp [List.getD_cons_zero]

theorem countP_choice_ne (legal : List String) (best : String) (hN : legal.Nodup)
    (hmem : best ∈ legal) :
    (List.range legal.length).countP (fun i => !(choice legal i == best))
      = legal.length - 1 := by
  have hch : ∀ i ∈ List.range legal.length,
      ((!(choice legal i == best)) = true ↔ (!(legal.getD i "" == best)) = true) := by
    intro i hi
    rw [List.mem_range] at hi
    unfold choice
    rw [Nat.mod_eq_of_lt hi]
  rw [List.countP_congr hch, countP_range_getD]
  have hcount : legal.count best = 1 := List.count_eq_one_of_mem hN hmem
  rw [List.count_eq_countP] at hcount
  have hsplit := List.length_eq_countP_add_countP (fun m => m == best) legal
  have hnot : legal.countP (fun a => decide ¬(a == best) = true)
      = legal.countP (fun m => !(m == best)) := by
    apply List.countP_congr
    intro a _
    by_cases h : (a == best) = true <;> simp [h]
  omega

/-- C10: the substitute move of a triggered mistake is drawn from the full
legal list, which still contains the suggested move, so when the suggested
move is legal and the legal moves are distinct, exactly length - 1 of the
equally likely choice indices deviate from the suggestion; the deviation
event is exactly (sample below the table chance) and (chosen index not the
suggestion), so the deviation probability is the table chance times
(n - 1) / n, strictly below the table chance. -/
theorem mistake_deviation_probability (skill : ℕ) (best : String) (legal : List String)
    (hN : legal.Nodup) (hmem : best ∈ legal) (h1 : 1 ≤ skill) (h9 : skill ≤ 9) :
    (∀ (r : ℚ) (i : ℕ), select_move_by_skill skill best legal r i ≠ best →
        r < mistake_chance skill ∧ choice legal i ≠ best)
    ∧ (∀ (r : ℚ) (i : ℕ), r < mistake_chance skill →
        select_move_by_skill skill best legal r i = choice legal i)
    ∧ (∀ (r : ℚ) (i : ℕ), mistake_chance skill ≤ r →
        select_move_by_skill skill best legal r i = best)
    ∧ (List.range legal.length).countP (fun i => !(choice legal i == best))
        = legal.length - 1
    ∧ mistake_chance skill * ((legal.length : ℚ) - 1) / legal.length
        < mistake_chance skill := by
  refine ⟨fun r i hne => ?_, fun r i hr => ?_, fun r i hr => ?_,
    countP_choice_ne legal best hN hmem, ?_⟩
  · unfold select_move_by_skill at hne
    rw [if_neg (by omega)] at hne
    by_cases hr : r < mistake_chance skill
    · rw [if_pos hr] at hne
      exact ⟨hr, hne⟩
    · rw [if_neg hr] at hne
      exact absurd rfl hne
  · unfold select_move_by_skill
    rw [if_neg (by omega), if_pos hr]
  · unfold select_move_by_skill
    rw [if_neg (by omega), if_neg (not_lt.mpr hr)]
  · have hn : 0 < legal.length := List.length_pos.mpr (List.ne_nil_of_mem hmem)
    have hnq : (0 : ℚ) < legal.length := by exact_mod_cast hn
    have hc : 0 < mistake_chance skill := by
      unfold mistake_chance
      split_ifs <;> norm_num
    rw [div_lt_iff₀ hnq]
    have hlt : ((legal.length : ℚ) - 1) < legal.length := by linarith
    exact mul_lt_mul_of_pos_left hlt hc

/-- Witness for C10 at skill 1 with a two-move legal list holding the
suggested move. -/
theorem mistake_deviation_probability_witness :
    (∀ (r : ℚ) (i : ℕ), select_move_by_skill 1 "a2a3" ["a2a3", "a2a4"] r i ≠ "a2a3" →
        r < mistake_chance 1 ∧ choice ["a2a3", "a2a4"] i ≠ "a2a3")
    ∧ (∀ (r : ℚ) (i : ℕ), r < mistake_chance 1 →
        select_move_by_skill 1 "a2a3" ["a2a3", "a2a4"] r i = choice ["a2a3", "a2a4"] i)
    ∧ (∀ (r : ℚ) (i : ℕ), mistake_chance 1 ≤ r →
        select_move_by_skill 1 "a2a3" ["a2a3", "a2a4"] r i = "a2a3")
    ∧ (List.range (["a2a3", "a2a4"] : List String).length).countP
        (fun i => !(choice ["a2a3", "a2a4"] i == "a2a3"))
        = (["a2a3", "a2a4"] : List String).length - 1
    ∧ mistake_chance 1 * (((["a2a3", "a2a4"] : List String).length : ℚ) - 1)
        / (["a2a3", "a2a4"] : List String).length < mistake_chance 1 :=
  mistake_deviation_probability 1 "a2a3" ["a2a3", "a2a4"] (by decide) (by decide)
    (by decide) (by decide)

end LlmChessBot
